import Mathlib

/-!
Shallow embedding of the queue-system backend (`src/app.py`).

The SQLite `queue` table is modelled as a `List Ticket` kept in insertion
(`id`) order; the `users` table as a `List User`.  Timestamps are natural
numbers (seconds); `date(x)` is modelled by `dayOf` (integer division by
86400).  SQL `ORDER BY join_time ASC` is modelled by a stable insertion
sort on `joinTime`; SQLite leaves the order of ties unspecified, so any
sort consistent with `≤` on `joinTime` is a faithful model.  The `UNIQUE`
constraint on `ticket_number` declared in `init_database` is modelled by
an explicit conflict check in `join_queue` (a violating `INSERT` raises
`IntegrityError`, the handler returns 500 and nothing is committed).
SQLite does not enforce the declared `FOREIGN KEY (user_id)` because the
code never issues `PRAGMA foreign_keys = ON`, so `join_queue` performs no
user-existence check, exactly as the Python does.
-/

/-- Ticket status vocabulary: `'waiting' | 'completed' | 'cancelled'`. -/
inductive Status where
  | waiting
  | completed
  | cancelled
deriving DecidableEq, Repr

/-- One row of the `queue` table (`init_database`, lines 45-58).
`position`, `called_time`, `completed_time` are nullable (`Option`). -/
structure Ticket where
  id : Nat
  userId : Nat
  ticketNumber : String
  queueType : String
  status : Status
  joinTime : Nat
  calledTime : Option Nat
  completedTime : Option Nat
  position : Option Nat
deriving DecidableEq, Repr

/-- One row of the `users` table (fields the queue logic reads). -/
structure User where
  id : Nat
  username : String
  full_name : String
  role : String
deriving DecidableEq, Repr

/-- The whole database: both tables plus the AUTOINCREMENT counter of
`queue.id`.  The user set is fixed (registration is out of scope). -/
structure QueueState where
  users : List User
  queue : List Ticket
  nextId : Nat
deriving DecidableEq, Repr

/-- `date(t)`: the calendar day a timestamp falls on. -/
def dayOf (t : Nat) : Nat := t / 86400

/-- `%03d`: zero-pad to at least three digits. -/
def pad3 (n : Nat) : String :=
  if n < 10 then "00" ++ toString n
  else if n < 100 then "0" ++ toString n
  else toString n

/-- `f"TICKET-{n:03d}"`. -/
def ticketFormat (n : Nat) : String := "TICKET-" ++ pad3 n

/-- `status = 'waiting'`. -/
def isWaiting (t : Ticket) : Bool := decide (t.status = Status.waiting)

/-- `SELECT * FROM queue WHERE status = 'waiting'` (table order). -/
def waitingTickets (q : List Ticket) : List Ticket := q.filter isWaiting

/-- `ORDER BY join_time ASC` comparison. -/
def timeLE (a b : Ticket) : Prop := a.joinTime ≤ b.joinTime

instance : DecidableRel timeLE := fun a b =>
  inferInstanceAs (Decidable (a.joinTime ≤ b.joinTime))

instance : IsTotal Ticket timeLE := ⟨fun a b => Nat.le_total a.joinTime b.joinTime⟩

instance : IsTrans Ticket timeLE := ⟨fun _ _ _ => Nat.le_trans⟩

/-- The waiting rows ordered by `join_time ASC`
(`update_queue_positions`, lines 101-105). -/
def waitingSorted (q : List Ticket) : List Ticket :=
  List.insertionSort timeLE (waitingTickets q)

/-- Index of the ticket with a given `id` in a list (`None` if absent). -/
def idxOfId (tid : Nat) : List Ticket → Option Nat
  | [] => none
  | t :: ts => if t.id = tid then some 0 else (idxOfId tid ts).map (· + 1)

/-- The effect of the loop `UPDATE queue SET position = idx WHERE id = ?`
on a single row: rows appearing in the sorted waiting list `ws` at index
`i` receive position `i + 1`, all other rows are untouched. -/
def setPos (ws : List Ticket) (t : Ticket) : Ticket :=
  match idxOfId t.id ws with
  | some i => { t with position := some (i + 1) }
  | none => t

/-- `update_queue_positions` (lines 95-114): recompute the 1-based position
of every waiting row, ordered by join time. -/
def update_queue_positions (q : List Ticket) : List Ticket :=
  q.map (setPos (waitingSorted q))

/-- `WHERE date(join_time) = date('now') AND status = 'waiting'`
(`generate_ticket_number`, lines 84-88). -/
def todayWaiting (q : List Ticket) (now : Nat) : List Ticket :=
  q.filter (fun t => decide (dayOf t.joinTime = dayOf now) && isWaiting t)

/-- `generate_ticket_number` (lines 78-92). -/
def generate_ticket_number (q : List Ticket) (now : Nat) : String :=
  ticketFormat ((todayWaiting q now).length + 1)

/-- The rows whose `date(join_time)` is the calendar day `d`, in table
(creation) order. -/
def dayTickets (q : List Ticket) (d : Nat) : List Ticket :=
  q.filter (fun t => decide (dayOf t.joinTime = d))

/-- Outcomes of `POST /join_queue`: 400 missing id, 409 already queued
(carrying the existing assignment), 500 `IntegrityError` on a duplicate
ticket number, 201 joined. -/
inductive JoinResult where
  | invalidInput
  | alreadyQueued (ticketNumber : String) (position : Option Nat)
  | conflict
  | joined (ticketNumber : String) (position : Option Nat)
deriving DecidableEq, Repr

/-- The row inserted by a successful join (lines 247-250): fresh
AUTOINCREMENT id, status `'waiting'`, `join_time = CURRENT_TIMESTAMP`,
nullable columns unset. -/
def newTicket (s : QueueState) (userId : Nat) (queueType : String) (now : Nat) : Ticket :=
  { id := s.nextId, userId := userId,
    ticketNumber := generate_ticket_number s.queue now,
    queueType := queueType, status := Status.waiting, joinTime := now,
    calledTime := none, completedTime := none, position := none }

/-- `join_queue` (lines 214-274). -/
def join_queue (s : QueueState) (userId : Nat) (queueType : String) (now : Nat) :
    QueueState × JoinResult :=
  if userId = 0 then (s, JoinResult.invalidInput) else
  match s.queue.find? (fun t => decide (t.userId = userId) && isWaiting t) with
  | some existing => (s, JoinResult.alreadyQueued existing.ticketNumber existing.position)
  | none =>
    let tn := generate_ticket_number s.queue now
    if s.queue.any (fun t => decide (t.ticketNumber = tn)) then (s, JoinResult.conflict)
    else
      let q := update_queue_positions (s.queue ++ [newTicket s userId queueType now])
      let pos := match q.find? (fun u => decide (u.ticketNumber = tn)) with
        | some u => u.position
        | none => none
      ({ users := s.users, queue := q, nextId := s.nextId + 1 }, JoinResult.joined tn pos)

/-- Order on nullable positions: SQLite `ORDER BY ... ASC` sorts `NULL`
first. -/
def optLE : Option Nat → Option Nat → Prop
  | none, _ => True
  | some _, none => False
  | some x, some y => x ≤ y

instance : ∀ x y, Decidable (optLE x y)
  | none, _ => isTrue trivial
  | some _, none => isFalse id
  | some _, some _ => inferInstanceAs (Decidable (_ ≤ _))

/-- `ORDER BY position ASC` comparison. -/
def posLE (a b : Ticket) : Prop := optLE a.position b.position

instance : DecidableRel posLE := fun a b =>
  inferInstanceAs (Decidable (optLE a.position b.position))

instance : IsTotal Ticket posLE :=
  ⟨fun a b => by
    unfold posLE optLE
    cases a.position <;> cases b.position <;> simp [Nat.le_total]⟩

instance : IsTrans Ticket posLE :=
  ⟨fun a b c => by
    unfold posLE optLE
    cases a.position <;> cases b.position <;> cases c.position <;> simp
    exact Nat.le_trans⟩

/-- Outcomes of `POST /call_next`: 403 not admin (also when the id matches
no user at all), 404 empty queue, 200 called. -/
inductive CallResult where
  | permissionDenied
  | emptyQueue
  | called (ticketNumber : String) (fullName : String)
deriving DecidableEq, Repr

/-- The rows of `queue JOIN users ON queue.user_id = users.id` restricted to
`status = 'waiting'` (`call_next`, lines 380-387): an inner join drops
waiting rows whose `user_id` matches no user. -/
def joinedWaiting (s : QueueState) : List Ticket :=
  s.queue.filter (fun t => isWaiting t && s.users.any (fun u => decide (u.id = t.userId)))

/-- `call_next` (lines 361-419). -/
def call_next (s : QueueState) (adminId : Nat) (now : Nat) : QueueState × CallResult :=
  match s.users.find? (fun u => decide (u.id = adminId)) with
  | none => (s, CallResult.permissionDenied)
  | some a =>
    if a.role = "admin" then
      match (List.insertionSort posLE (joinedWaiting s)).head? with
      | none => (s, CallResult.emptyQueue)
      | some np =>
        let name := match s.users.find? (fun u => decide (u.id = np.userId)) with
          | some u => u.full_name
          | none => ""
        ({ users := s.users,
           queue := update_queue_positions (s.queue.map (fun t =>
             if t.id = np.id then
               { t with status := Status.completed, calledTime := some now }
             else t)),
           nextId := s.nextId }, CallResult.called np.ticketNumber name)
    else (s, CallResult.permissionDenied)

/-- Outcomes of `DELETE /leave_queue`: 400 missing id, 404 not in queue,
200 left. -/
inductive LeaveResult where
  | invalidInput
  | notInQueue
  | left
deriving DecidableEq, Repr

/-- `leave_queue` (lines 422-459): `UPDATE queue SET status = 'cancelled',
completed_time = now WHERE user_id = ? AND status = 'waiting'`; zero rows
affected reports "not in the queue". -/
def leave_queue (s : QueueState) (userId : Nat) (now : Nat) :
    QueueState × LeaveResult :=
  if userId = 0 then (s, LeaveResult.invalidInput) else
  if s.queue.any (fun t => decide (t.userId = userId) && isWaiting t) then
    ({ users := s.users,
       queue := update_queue_positions (s.queue.map (fun t =>
         if t.userId = userId ∧ t.status = Status.waiting then
           { t with status := Status.cancelled, completedTime := some now }
         else t)),
       nextId := s.nextId }, LeaveResult.left)
  else (s, LeaveResult.notInQueue)

/-- The three aggregates of `GET /queue_stats`. -/
structure Stats where
  waitingCount : Nat
  completedToday : Nat
  totalUsers : Nat
deriving DecidableEq, Repr

/-- `queue_stats` (lines 462-494): note the second count filters on
`completed_time`, which rows with status `'completed'` never carry
(`call_next` stamps `called_time` only); `date(NULL) = date('now')` is
not true in SQL. -/
def queue_stats (s : QueueState) (now : Nat) : Stats :=
  { waitingCount := (s.queue.filter isWaiting).length
  , completedToday := (s.queue.filter (fun t =>
      decide (t.status = Status.completed) &&
        match t.completedTime with
        | some ct => decide (dayOf ct = dayOf now)
        | none => false)).length
  , totalUsers := (s.users.filter (fun u => !decide (u.role = "admin"))).length }

/-- One mutating API call together with the wall-clock time it runs at. -/
inductive Op where
  | join (userId : Nat) (queueType : String) (now : Nat)
  | callNext (adminId : Nat) (now : Nat)
  | leave (userId : Nat) (now : Nat)
deriving DecidableEq, Repr

/-- The state after one operation (its response discarded). -/
def step (s : QueueState) : Op → QueueState
  | Op.join u qt now => (join_queue s u qt now).1
  | Op.callNext a now => (call_next s a now).1
  | Op.leave u now => (leave_queue s u now).1

/-- The state after a sequence of operations. -/
def run (s : QueueState) (ops : List Op) : QueueState := ops.foldl step s

/-- A freshly initialised database: an empty `queue` table
(AUTOINCREMENT starting at 1) and a given user table. -/
def initState (us : List User) : QueueState :=
  { users := us, queue := [], nextId := 1 }

/-- States reachable by some sequence of API calls from a fresh database
whose user table has primary-key-distinct ids. -/
def Reachable (us : List User) (s : QueueState) : Prop :=
  (us.map User.id).Nodup ∧ ∃ ops : List Op, s = run (initState us) ops

/-! ### Lemmas about `update_queue_positions` -/

theorem setPos_id (ws : List Ticket) (t : Ticket) : (setPos ws t).id = t.id := by
  unfold setPos
  cases idxOfId t.id ws <;> rfl

theorem setPos_userId (ws : List Ticket) (t : Ticket) : (setPos ws t).userId = t.userId := by
  unfold setPos
  cases idxOfId t.id ws <;> rfl

theorem setPos_ticketNumber (ws : List Ticket) (t : Ticket) :
    (setPos ws t).ticketNumber = t.ticketNumber := by
  unfold setPos
  cases idxOfId t.id ws <;> rfl

theorem setPos_status (ws : List Ticket) (t : Ticket) : (setPos ws t).status = t.status := by
  unfold setPos
  cases idxOfId t.id ws <;> rfl

theorem setPos_joinTime (ws : List Ticket) (t : Ticket) :
    (setPos ws t).joinTime = t.joinTime := by
  unfold setPos
  cases idxOfId t.id ws <;> rfl

theorem setPos_isWaiting (ws : List Ticket) (t : Ticket) :
    isWaiting (setPos ws t) = isWaiting t := by
  unfold isWaiting
  rw [setPos_status]

theorem waitingTickets_map_setPos (ws : List Ticket) (q : List Ticket) :
    waitingTickets (q.map (setPos ws)) = (waitingTickets q).map (setPos ws) := by
  unfold waitingTickets
  rw [List.filter_map]
  have h : isWaiting ∘ setPos ws = isWaiting := by
    funext t
    simp only [Function.comp_apply, setPos_isWaiting]
  rw [h]

theorem insertionSort_map_setPos (ws : List Ticket) (l : List Ticket) :
    List.insertionSort timeLE (l.map (setPos ws))
      = (List.insertionSort timeLE l).map (setPos ws) := by
  refine (List.map_insertionSort timeLE timeLE (setPos ws) l ?_).symm
  intro a _ b _
  unfold timeLE
  rw [setPos_joinTime, setPos_joinTime]

theorem waitingSorted_update (q : List Ticket) :
    waitingSorted (update_queue_positions q)
      = (waitingSorted q).map (setPos (waitingSorted q)) := by
  unfold update_queue_positions waitingSorted
  rw [waitingTickets_map_setPos, insertionSort_map_setPos]

theorem idxOfId_getElem (l : List Ticket) (hnd : (l.map Ticket.id).Nodup) :
    ∀ i (h : i < l.length), idxOfId l[i].id l = some i := by
  induction l with
  | nil => intro i h; exact absurd h (Nat.not_lt_zero i)
  | cons t ts ih =>
    intro i h
    rw [List.map_cons, List.nodup_cons] at hnd
    cases i with
    | zero => simp [idxOfId]
    | succ j =>
      have hj : j < ts.length := Nat.lt_of_succ_lt_succ h
      have hmem : (ts[j]).id ∈ ts.map Ticket.id := by
        exact List.mem_map.mpr ⟨ts[j], ts.getElem_mem hj, rfl⟩
      have hne : ¬t.id = (ts[j]).id := by
        intro he
        exact hnd.1 (he ▸ hmem)
      show idxOfId ((t :: ts)[j + 1]).id (t :: ts) = some (j + 1)
      have hgt : (t :: ts)[j + 1] = ts[j] := by
        simp
      rw [hgt]
      unfold idxOfId
      rw [if_neg hne, ih hnd.2 j hj]
      rfl

theorem setPos_getElem (ws : List Ticket) (hnd : (ws.map Ticket.id).Nodup)
    (i : Nat) (h : i < ws.length) :
    setPos ws ws[i] = { ws[i] with position := some (i + 1) } := by
  unfold setPos
  rw [idxOfId_getElem ws hnd i h]

theorem nodup_ids_waitingSorted (q : List Ticket) (hnd : (q.map Ticket.id).Nodup) :
    ((waitingSorted q).map Ticket.id).Nodup := by
  have hsub : ((waitingTickets q).map Ticket.id).Sublist (q.map Ticket.id) :=
    List.Sublist.map Ticket.id (List.filter_sublist q)
  have hw : ((waitingTickets q).map Ticket.id).Nodup := hsub.nodup hnd
  have hperm : (waitingSorted q).Perm (waitingTickets q) :=
    List.perm_insertionSort timeLE (waitingTickets q)
  exact ((hperm.map Ticket.id).nodup_iff).mpr hw

theorem posOk_update (q : List Ticket) (hnd : (q.map Ticket.id).Nodup) :
    (waitingSorted (update_queue_positions q)).map Ticket.position
      = (List.range' 1 (waitingSorted (update_queue_positions q)).length).map some := by
  rw [waitingSorted_update]
  have hndw := nodup_ids_waitingSorted q hnd
  refine List.ext_getElem ?_ ?_
  · simp
  · intro n h1 h2
    have hn : n < (waitingSorted q).length := by
      simpa using h1
    rw [List.getElem_map, List.getElem_map, List.getElem_map, List.getElem_range']
    rw [setPos_getElem (waitingSorted q) hndw n hn]
    simp [Nat.add_comm]

theorem map_id_update (q : List Ticket) :
    (update_queue_positions q).map Ticket.id = q.map Ticket.id := by
  unfold update_queue_positions
  rw [List.map_map]
  have h : Ticket.id ∘ setPos (waitingSorted q) = Ticket.id := by
    funext t
    simp only [Function.comp_apply, setPos_id]
  rw [h]

theorem map_tn_update (q : List Ticket) :
    (update_queue_positions q).map Ticket.ticketNumber = q.map Ticket.ticketNumber := by
  unfold update_queue_positions
  rw [List.map_map]
  have h : Ticket.ticketNumber ∘ setPos (waitingSorted q) = Ticket.ticketNumber := by
    funext t
    simp only [Function.comp_apply, setPos_ticketNumber]
  rw [h]

theorem dayTickets_map (g : Ticket → Ticket) (hjt : ∀ t, (g t).joinTime = t.joinTime)
    (l : List Ticket) (d : Nat) :
    dayTickets (l.map g) d = (dayTickets l d).map g := by
  unfold dayTickets
  rw [List.filter_map]
  have hp : ((fun t => decide (dayOf t.joinTime = d)) ∘ g)
      = (fun t => decide (dayOf t.joinTime = d)) := by
    funext t
    simp only [Function.comp_apply, hjt]
  rw [hp]

theorem dayTickets_map_tn (g : Ticket → Ticket)
    (hjt : ∀ t, (g t).joinTime = t.joinTime)
    (htn : ∀ t, (g t).ticketNumber = t.ticketNumber) (l : List Ticket) (d : Nat) :
    (dayTickets (l.map g) d).map Ticket.ticketNumber
      = (dayTickets l d).map Ticket.ticketNumber := by
  rw [dayTickets_map g hjt, List.map_map]
  have h : Ticket.ticketNumber ∘ g = Ticket.ticketNumber := by
    funext t
    simp only [Function.comp_apply, htn]
  rw [h]

/-! ### The state invariant maintained by every operation -/

/-- Invariants of every reachable database state: queue ids are strictly
increasing (AUTOINCREMENT) and below the counter; ticket numbers are
globally distinct (the `UNIQUE` storage constraint); the waiting rows,
sorted by join time, carry positions exactly `1..N`; each user holds at
most one waiting ticket; and, for every calendar day `d`, the rows created
on day `d` carry, in creation order, exactly the numbers
`TICKET-001 .. TICKET-00k`. -/
structure StateInv (s : QueueState) : Prop where
  idBound : ∀ t ∈ s.queue, t.id < s.nextId
  idSorted : List.Sorted (· < ·) (s.queue.map Ticket.id)
  tnNodup : (s.queue.map Ticket.ticketNumber).Nodup
  posOk : (waitingSorted s.queue).map Ticket.position
      = (List.range' 1 (waitingSorted s.queue).length).map some
  oneWaiting : ∀ t ∈ s.queue, ∀ t' ∈ s.queue, t.status = Status.waiting →
      t'.status = Status.waiting → t.userId = t'.userId → t = t'
  dayNums : ∀ d, (dayTickets s.queue d).map Ticket.ticketNumber
      = (List.range' 1 (dayTickets s.queue d).length).map ticketFormat

theorem StateInv.idNodup {s : QueueState} (h : StateInv s) :
    (s.queue.map Ticket.id).Nodup :=
  h.idSorted.nodup

theorem stateInv_mapUpd (s : QueueState) (h : StateInv s) (f : Ticket → Ticket)
    (hid : ∀ t, (f t).id = t.id)
    (huid : ∀ t, (f t).userId = t.userId)
    (htn : ∀ t, (f t).ticketNumber = t.ticketNumber)
    (hjt : ∀ t, (f t).joinTime = t.joinTime)
    (hw : ∀ t, (f t).status = Status.waiting → t.status = Status.waiting) :
    StateInv { users := s.users, queue := update_queue_positions (s.queue.map f),
               nextId := s.nextId } := by
  have hmapid : (s.queue.map f).map Ticket.id = s.queue.map Ticket.id := by
    rw [List.map_map]
    have hc : Ticket.id ∘ f = Ticket.id := by
      funext t
      simp only [Function.comp_apply, hid]
    rw [hc]
  have hmaptn : (s.queue.map f).map Ticket.ticketNumber
      = s.queue.map Ticket.ticketNumber := by
    rw [List.map_map]
    have hc : Ticket.ticketNumber ∘ f = Ticket.ticketNumber := by
      funext t
      simp only [Function.comp_apply, htn]
    rw [hc]
  have hQid : (update_queue_positions (s.queue.map f)).map Ticket.id
      = s.queue.map Ticket.id := by
    rw [map_id_update, hmapid]
  refine ⟨?_, ?_, ?_, ?_, ?_, ?_⟩
  · intro t' ht'
    have : t'.id ∈ (update_queue_positions (s.queue.map f)).map Ticket.id :=
      List.mem_map.mpr ⟨t', ht', rfl⟩
    rw [hQid] at this
    obtain ⟨x, hx, hxid⟩ := List.mem_map.mp this
    exact hxid ▸ h.idBound x hx
  · rw [hQid]
    exact h.idSorted
  · rw [map_tn_update, hmaptn]
    exact h.tnNodup
  · have hnd : ((s.queue.map f).map Ticket.id).Nodup := by
      rw [hmapid]
      exact h.idNodup
    exact posOk_update (s.queue.map f) hnd
  · intro t' ht' t'' ht'' hw' hw'' huser
    simp only [update_queue_positions] at ht' ht''
    obtain ⟨x1, hx1, he1⟩ := List.mem_map.mp ht'
    obtain ⟨y1, hy1, he2⟩ := List.mem_map.mp hx1
    obtain ⟨x2, hx2, he3⟩ := List.mem_map.mp ht''
    obtain ⟨y2, hy2, he4⟩ := List.mem_map.mp hx2
    have hst1 : (f y1).status = Status.waiting := by
      rw [← he1, setPos_status, ← he2] at hw'
      exact hw'
    have hst2 : (f y2).status = Status.waiting := by
      rw [← he3, setPos_status, ← he4] at hw''
      exact hw''
    have hu : y1.userId = y2.userId := by
      rw [← he1, setPos_userId, ← he2, huid] at huser
      rw [← he3, setPos_userId, ← he4, huid] at huser
      exact huser
    have hy : y1 = y2 := h.oneWaiting y1 hy1 y2 hy2 (hw y1 hst1) (hw y2 hst2) hu
    rw [← he1, ← he2, ← he3, ← he4, hy]
  · intro d
    have e1 : (dayTickets (update_queue_positions (s.queue.map f)) d).map Ticket.ticketNumber
        = (dayTickets (s.queue.map f) d).map Ticket.ticketNumber := by
      unfold update_queue_positions
      exact dayTickets_map_tn _ (setPos_joinTime _) (setPos_ticketNumber _) _ d
    have e2 : (dayTickets (s.queue.map f) d).map Ticket.ticketNumber
        = (dayTickets s.queue d).map Ticket.ticketNumber :=
      dayTickets_map_tn f hjt htn s.queue d
    have elen : (dayTickets (update_queue_positions (s.queue.map f)) d).length
        = (dayTickets s.queue d).length := by
      have := congrArg List.length (e1.trans e2)
      simpa using this
    rw [e1, e2, elen]
    exact h.dayNums d

theorem todayWaiting_sub (q : List Ticket) (now : Nat) :
    todayWaiting q now = (dayTickets q (dayOf now)).filter isWaiting := by
  unfold todayWaiting dayTickets
  rw [List.filter_filter]
  congr 1
  funext t
  exact Bool.and_comm _ _

theorem stateInv_join_success (s : QueueState) (h : StateInv s) (u : Nat) (qt : String)
    (now : Nat)
    (hfind : s.queue.find? (fun t => decide (t.userId = u) && isWaiting t) = none)
    (hany : ¬(s.queue.any (fun t =>
        decide (t.ticketNumber = generate_ticket_number s.queue now)) = true)) :
    StateInv { users := s.users,
               queue := update_queue_positions (s.queue ++ [newTicket s u qt now]),
               nextId := s.nextId + 1 } := by
  have hanyf : ∀ x ∈ s.queue, ¬x.ticketNumber = generate_ticket_number s.queue now := by
    intro x hx he
    exact hany (List.any_eq_true.mpr ⟨x, hx, by simp [he]⟩)
  have hQid : (update_queue_positions (s.queue ++ [newTicket s u qt now])).map Ticket.id
      = s.queue.map Ticket.id ++ [s.nextId] := by
    rw [map_id_update]
    simp [newTicket]
  have hnd : (((s.queue ++ [newTicket s u qt now])).map Ticket.id).Nodup := by
    rw [List.map_append, List.nodup_append]
    refine ⟨h.idNodup, by simp, ?_⟩
    intro a ha hb
    have hb1 : a = s.nextId := by simpa [newTicket] using hb
    obtain ⟨x, hx, hxe⟩ := List.mem_map.mp ha
    rw [hb1] at hxe
    exact absurd (hxe ▸ h.idBound x hx) (lt_irrefl _)
  refine ⟨?_, ?_, ?_, ?_, ?_, ?_⟩
  · intro t' ht'
    simp only [update_queue_positions] at ht'
    obtain ⟨x, hx, hxe⟩ := List.mem_map.mp ht'
    have hxid : t'.id = x.id := by
      rw [← hxe, setPos_id]
    rw [hxid]
    rcases List.mem_append.mp hx with hxq | hxs
    · exact Nat.lt_succ_of_lt (h.idBound x hxq)
    · have hx0 : x = newTicket s u qt now := by simpa using hxs
      rw [hx0]
      exact Nat.lt_succ_self s.nextId
  · show List.Sorted (· < ·)
      ((update_queue_positions (s.queue ++ [newTicket s u qt now])).map Ticket.id)
    rw [hQid]
    show List.Pairwise (· < ·) (s.queue.map Ticket.id ++ [s.nextId])
    rw [List.pairwise_append]
    refine ⟨h.idSorted, List.pairwise_singleton _ _, ?_⟩
    intro a ha b hb
    have hb1 : b = s.nextId := by simpa using hb
    obtain ⟨x, hx, hxe⟩ := List.mem_map.mp ha
    rw [hb1, ← hxe]
    exact h.idBound x hx
  · rw [map_tn_update, List.map_append, List.nodup_append]
    refine ⟨h.tnNodup, by simp, ?_⟩
    intro a ha hb
    have hb1 : a = generate_ticket_number s.queue now := by simpa [newTicket] using hb
    obtain ⟨x, hx, hxe⟩ := List.mem_map.mp ha
    exact hanyf x hx (hxe.trans hb1)
  · exact posOk_update (s.queue ++ [newTicket s u qt now]) hnd
  · intro t' ht' t'' ht'' hw' hw'' huser
    simp only [update_queue_positions] at ht' ht''
    obtain ⟨x1, hx1, he1⟩ := List.mem_map.mp ht'
    obtain ⟨x2, hx2, he2⟩ := List.mem_map.mp ht''
    have hst1 : x1.status = Status.waiting := by
      rw [← he1, setPos_status] at hw'
      exact hw'
    have hst2 : x2.status = Status.waiting := by
      rw [← he2, setPos_status] at hw''
      exact hw''
    have hus : x1.userId = x2.userId := by
      rw [← he1, setPos_userId, ← he2, setPos_userId] at huser
      exact huser
    have hfind' : ∀ x ∈ s.queue, ¬(x.userId = u ∧ x.status = Status.waiting) := by
      intro x hx hc
      have hnp := List.find?_eq_none.mp hfind x hx
      simp only [isWaiting, Bool.and_eq_true, decide_eq_true_eq] at hnp
      exact hnp ⟨hc.1, hc.2⟩
    rcases List.mem_append.mp hx1 with hq1 | hs1 <;>
      rcases List.mem_append.mp hx2 with hq2 | hs2
    · have hxy := h.oneWaiting x1 hq1 x2 hq2 hst1 hst2 hus
      rw [← he1, ← he2, hxy]
    · have hx2t : x2 = newTicket s u qt now := by simpa using hs2
      have huu : x1.userId = u := by
        rw [hus, hx2t]
        rfl
      exact absurd ⟨huu, hst1⟩ (hfind' x1 hq1)
    · have hx1t : x1 = newTicket s u qt now := by simpa using hs1
      have huu : x2.userId = u := by
        rw [← hus, hx1t]
        rfl
      exact absurd ⟨huu, hst2⟩ (hfind' x2 hq2)
    · have hx1t : x1 = newTicket s u qt now := by simpa using hs1
      have hx2t : x2 = newTicket s u qt now := by simpa using hs2
      rw [← he1, ← he2, hx1t, hx2t]
  · intro d
    have e1 : (dayTickets (update_queue_positions (s.queue ++ [newTicket s u qt now])) d).map
          Ticket.ticketNumber
        = (dayTickets (s.queue ++ [newTicket s u qt now]) d).map Ticket.ticketNumber := by
      unfold update_queue_positions
      exact dayTickets_map_tn _ (setPos_joinTime _) (setPos_ticketNumber _) _ d
    have elen : (dayTickets (update_queue_positions (s.queue ++ [newTicket s u qt now])) d).length
        = (dayTickets (s.queue ++ [newTicket s u qt now]) d).length := by
      have h2 := congrArg List.length e1
      simpa using h2
    rw [e1, elen]
    have hsplit : dayTickets (s.queue ++ [newTicket s u qt now]) d
        = dayTickets s.queue d ++ dayTickets [newTicket s u qt now] d :=
      List.filter_append _ _
    by_cases hd : dayOf now = d
    · have ht0d : dayTickets [newTicket s u qt now] d = [newTicket s u qt now] := by
        simp [dayTickets, newTicket, hd]
      rw [hsplit, ht0d]
      have hck : (todayWaiting s.queue now).length = (dayTickets s.queue d).length := by
        have hle : (todayWaiting s.queue now).length ≤ (dayTickets s.queue d).length := by
          rw [todayWaiting_sub, hd]
          exact List.length_filter_le _ _
        have hge : (dayTickets s.queue d).length ≤ (todayWaiting s.queue now).length := by
          by_contra hlt
          push_neg at hlt
          have hmem : (todayWaiting s.queue now).length + 1 ∈
              List.range' 1 (dayTickets s.queue d).length :=
            List.mem_range'_1.mpr ⟨Nat.succ_le_succ (Nat.zero_le _), by omega⟩
          have hfm : ticketFormat ((todayWaiting s.queue now).length + 1) ∈
              (dayTickets s.queue d).map Ticket.ticketNumber := by
            rw [h.dayNums d]
            exact List.mem_map_of_mem ticketFormat hmem
          obtain ⟨x, hx, hxe⟩ := List.mem_map.mp hfm
          have hxq : x ∈ s.queue := List.mem_of_mem_filter hx
          exact hanyf x hxq hxe
        exact Nat.le_antisymm hle hge
      rw [List.map_append, List.length_append, h.dayNums d]
      have hnew : (newTicket s u qt now).ticketNumber
          = ticketFormat ((dayTickets s.queue d).length + 1) := by
        show generate_ticket_number s.queue now = _
        unfold generate_ticket_number
        rw [hck]
      have hlast : [newTicket s u qt now].map Ticket.ticketNumber
          = [ticketFormat ((dayTickets s.queue d).length + 1)] := by
        simp [hnew]
      rw [hlast]
      have hrange : List.range' 1 ((dayTickets s.queue d).length + 1)
          = List.range' 1 (dayTickets s.queue d).length
            ++ [(dayTickets s.queue d).length + 1] := by
        have hr := @List.range'_concat 1 1 (dayTickets s.queue d).length
        simpa [Nat.add_comm] using hr
      simp only [List.length_cons, List.length_nil]
      rw [hrange, List.map_append]
      simp
    · have ht0d : dayTickets [newTicket s u qt now] d = [] := by
        simp [dayTickets, newTicket, hd]
      rw [hsplit, ht0d, List.append_nil]
      exact h.dayNums d

theorem stateInv_join (s : QueueState) (u : Nat) (qt : String) (now : Nat)
    (h : StateInv s) : StateInv (join_queue s u qt now).1 := by
  unfold join_queue
  split
  · exact h
  · split
    · exact h
    · dsimp only
      split
      · exact h
      · exact stateInv_join_success s h u qt now (by assumption) (by assumption)

theorem stateInv_callNext (s : QueueState) (a : Nat) (now : Nat)
    (h : StateInv s) : StateInv (call_next s a now).1 := by
  unfold call_next
  split
  · exact h
  · split
    · split
      · exact h
      · refine stateInv_mapUpd s h _ ?_ ?_ ?_ ?_ ?_ <;> intro t
        · split <;> rfl
        · split <;> rfl
        · split <;> rfl
        · split <;> rfl
        · intro hst
          split at hst
          · exact absurd hst (by simp)
          · exact hst
    · exact h

theorem stateInv_leave (s : QueueState) (u : Nat) (now : Nat)
    (h : StateInv s) : StateInv (leave_queue s u now).1 := by
  unfold leave_queue
  split
  · exact h
  · split
    · refine stateInv_mapUpd s h _ ?_ ?_ ?_ ?_ ?_ <;> intro t
      · split <;> rfl
      · split <;> rfl
      · split <;> rfl
      · split <;> rfl
      · intro hst
        split at hst
        · exact absurd hst (by simp)
        · exact hst
    · exact h

theorem stateInv_init (us : List User) : StateInv (initState us) := by
  refine ⟨?_, ?_, ?_, ?_, ?_, ?_⟩ <;>
    simp [initState, waitingSorted, waitingTickets, dayTickets]

theorem stateInv_run (ops : List Op) : ∀ s, StateInv s → StateInv (run s ops) := by
  induction ops with
  | nil => intro s h; exact h
  | cons op ops ih =>
    intro s h
    have h1 : StateInv (step s op) := by
      cases op with
      | join u qt now => exact stateInv_join s u qt now h
      | callNext a now => exact stateInv_callNext s a now h
      | leave u now => exact stateInv_leave s u now h
    exact ih (step s op) h1

theorem Reachable.stateInv {us : List User} {s : QueueState} (h : Reachable us s) :
    StateInv s := by
  obtain ⟨_, ops, hs⟩ := h
  rw [hs]
  exact stateInv_run ops (initState us) (stateInv_init us)

/-! ### Helpers for the claim theorems -/

theorem setPos_calledTime (ws : List Ticket) (t : Ticket) :
    (setPos ws t).calledTime = t.calledTime := by
  unfold setPos
  cases idxOfId t.id ws <;> rfl

theorem setPos_completedTime (ws : List Ticket) (t : Ticket) :
    (setPos ws t).completedTime = t.completedTime := by
  unfold setPos
  cases idxOfId t.id ws <;> rfl

theorem pos_of_index {q : List Ticket}
    (hpos : (waitingSorted q).map Ticket.position
      = (List.range' 1 (waitingSorted q).length).map some)
    (i : Nat) (hi : i < (waitingSorted q).length) :
    ((waitingSorted q)[i]).position = some (i + 1) := by
  have h1 : ((waitingSorted q).map Ticket.position)[i]?
      = ((List.range' 1 (waitingSorted q).length).map some)[i]? := by
    rw [hpos]
  rw [List.getElem?_map, List.getElem?_map, List.getElem?_eq_getElem hi,
    List.getElem?_range' 1 1 hi] at h1
  simp only [Option.map_some'] at h1
  have h2 : ((waitingSorted q)[i]).position = some (1 + 1 * i) := by
    injection h1
  rw [h2]
  congr 1
  omega

theorem posLE_refl (a : Ticket) : posLE a a := by
  unfold posLE optLE
  cases a.position <;> simp

theorem head_sorted_min {l : List Ticket} {x : Ticket}
    (hh : (List.insertionSort posLE l).head? = some x) :
    x ∈ l ∧ ∀ w ∈ l, posLE x w := by
  cases hs : List.insertionSort posLE l with
  | nil =>
    rw [hs] at hh
    cases hh
  | cons a rest =>
    rw [hs] at hh
    have hax : a = x := by injection hh
    have hsorted : List.Sorted posLE (a :: rest) := by
      rw [← hs]
      exact List.sorted_insertionSort posLE l
    constructor
    · have : x ∈ a :: rest := hax ▸ List.mem_cons_self a rest
      rw [← hs] at this
      exact (List.mem_insertionSort posLE).mp this
    · intro w hw
      have hw' : w ∈ a :: rest := by
        rw [← hs]
        exact (List.mem_insertionSort posLE).mpr hw
      rcases List.mem_cons.mp hw' with he | hm
      · rw [he, ← hax]
        exact posLE_refl a
      · exact hax ▸ List.rel_of_sorted_cons hsorted w hm

theorem minpos_min_joinTime (q : List Ticket)
    (hpos : (waitingSorted q).map Ticket.position
      = (List.range' 1 (waitingSorted q).length).map some)
    (np : Ticket) (hnp : np ∈ waitingTickets q)
    (hmin : ∀ w ∈ waitingTickets q, posLE np w) :
    ∀ w ∈ waitingTickets q, np.joinTime ≤ w.joinTime := by
  have hws : np ∈ waitingSorted q := (List.mem_insertionSort timeLE).mpr hnp
  obtain ⟨i, hi, hie⟩ := List.mem_iff_getElem.mp hws
  have hpi : np.position = some (i + 1) := by
    rw [← hie]
    exact pos_of_index hpos i hi
  have hlen0 : 0 < (waitingSorted q).length := Nat.lt_of_le_of_lt (Nat.zero_le i) hi
  have hh0 : (waitingSorted q)[0] ∈ waitingTickets q :=
    (List.mem_insertionSort timeLE).mp (List.getElem_mem hlen0)
  have hp0 : ((waitingSorted q)[0]).position = some 1 := by
    simpa using pos_of_index hpos 0 hlen0
  have hle := hmin _ hh0
  unfold posLE at hle
  rw [hpi, hp0] at hle
  have hi0 : i = 0 := by
    have h1 : i + 1 ≤ 1 := hle
    omega
  subst hi0
  have hsorted : List.Sorted timeLE (waitingSorted q) :=
    List.sorted_insertionSort timeLE (waitingTickets q)
  intro w hw
  have hwws : w ∈ waitingSorted q := (List.mem_insertionSort timeLE).mpr hw
  obtain ⟨j, hj, hje⟩ := List.mem_iff_getElem.mp hwws
  cases Nat.eq_zero_or_pos j with
  | inl hj0 =>
    subst hj0
    rw [← hje, ← hie]
  | inr hjpos =>
    have hrel := List.pairwise_iff_get.mp hsorted ⟨0, hlen0⟩ ⟨j, hj⟩ hjpos
    rw [List.get_eq_getElem, List.get_eq_getElem] at hrel
    unfold timeLE at hrel
    rw [← hie, ← hje]
    exact hrel

theorem find?_unique {α : Type} (p : α → Bool) (l : List α) (x : α) (hx : x ∈ l)
    (hpx : p x = true) (huniq : ∀ y ∈ l, p y = true → y = x) :
    l.find? p = some x := by
  induction l with
  | nil => cases hx
  | cons a as ih =>
    rw [List.find?_cons]
    by_cases hpa : p a = true
    · rw [hpa]
      rw [huniq a (List.mem_cons_self a as) hpa]
    · have hpa' : p a = false := by
        cases h : p a
        · rfl
        · exact absurd h hpa
      rw [hpa']
      rcases List.mem_cons.mp hx with he | hm
      · rw [← he] at hpa
        exact absurd hpx hpa
      · exact ih hm (fun y hy hpy => huniq y (List.mem_cons_of_mem a hy) hpy)

theorem stateInv_step (s : QueueState) (op : Op) (h : StateInv s) :
    StateInv (step s op) := by
  cases op with
  | join u qt now => exact stateInv_join s u qt now h
  | callNext a now => exact stateInv_callNext s a now h
  | leave u now => exact stateInv_leave s u now h

theorem nodup_ids_append (s : QueueState) (h : StateInv s) (t0 : Ticket)
    (h0 : t0.id = s.nextId) : ((s.queue ++ [t0]).map Ticket.id).Nodup := by
  rw [List.map_append, List.nodup_append]
  refine ⟨h.idNodup, by simp, ?_⟩
  intro a ha hb
  have hb1 : a = t0.id := by simpa using hb
  obtain ⟨x, hx, hxe⟩ := List.mem_map.mp ha
  rw [hb1, h0] at hxe
  exact absurd (hxe ▸ h.idBound x hx) (lt_irrefl _)

theorem status_mem_update_map (q : List Ticket) (hnd : (q.map Ticket.id).Nodup)
    (f : Ticket → Ticket) (hid : ∀ x, (f x).id = x.id)
    (t : Ticket) (ht : t ∈ q) (t' : Ticket)
    (ht' : t' ∈ update_queue_positions (q.map f)) (hide : t'.id = t.id) :
    t'.status = (f t).status := by
  simp only [update_queue_positions] at ht'
  obtain ⟨x1, hx1, he1⟩ := List.mem_map.mp ht'
  obtain ⟨y1, hy1, he2⟩ := List.mem_map.mp hx1
  have hyid : y1.id = t.id := by
    rw [← he1, setPos_id, ← he2, hid] at hide
    exact hide
  have hyt : y1 = t := List.inj_on_of_nodup_map hnd hy1 ht hyid
  rw [← he1, setPos_status, ← he2, hyt]

theorem status_mem_update_append (q : List Ticket) (t0 : Ticket)
    (hnd : ((q ++ [t0]).map Ticket.id).Nodup)
    (t : Ticket) (ht : t ∈ q) (t' : Ticket)
    (ht' : t' ∈ update_queue_positions (q ++ [t0])) (hide : t'.id = t.id) :
    t'.status = t.status := by
  simp only [update_queue_positions] at ht'
  obtain ⟨x, hx, he⟩ := List.mem_map.mp ht'
  have hxid : x.id = t.id := by
    rw [← he, setPos_id] at hide
    exact hide
  have hxt : x = t :=
    List.inj_on_of_nodup_map hnd hx (List.mem_append.mpr (Or.inl ht)) hxid
  rw [← he, setPos_status, hxt]

theorem mem_step_of_mem (s : QueueState) (op : Op) (t : Ticket) (ht : t ∈ s.queue) :
    ∃ t₁ ∈ (step s op).queue, t₁.id = t.id := by
  cases op with
  | join u qt now =>
    show ∃ t₁ ∈ (join_queue s u qt now).1.queue, t₁.id = t.id
    unfold join_queue
    split
    · exact ⟨t, ht, rfl⟩
    · split
      · exact ⟨t, ht, rfl⟩
      · dsimp only
        split
        · exact ⟨t, ht, rfl⟩
        · refine ⟨setPos (waitingSorted (s.queue ++ [newTicket s u qt now])) t, ?_, ?_⟩
          · show _ ∈ update_queue_positions (s.queue ++ [newTicket s u qt now])
            simp only [update_queue_positions]
            exact List.mem_map.mpr ⟨t, List.mem_append.mpr (Or.inl ht), rfl⟩
          · exact setPos_id _ _
  | callNext a now =>
    show ∃ t₁ ∈ (call_next s a now).1.queue, t₁.id = t.id
    unfold call_next
    split
    · exact ⟨t, ht, rfl⟩
    · split
      · split
        · exact ⟨t, ht, rfl⟩
        · rename_i np heq
          refine ⟨setPos (waitingSorted (s.queue.map (fun x =>
              if x.id = np.id then
                { x with status := Status.completed, calledTime := some now }
              else x)))
              ((fun x => if x.id = np.id then
                { x with status := Status.completed, calledTime := some now }
              else x) t), ?_, ?_⟩
          · show _ ∈ update_queue_positions _
            simp only [update_queue_positions]
            exact List.mem_map.mpr ⟨_, List.mem_map.mpr ⟨t, ht, rfl⟩, rfl⟩
          · rw [setPos_id]
            dsimp only
            split <;> rfl
      · exact ⟨t, ht, rfl⟩
  | leave u now =>
    show ∃ t₁ ∈ (leave_queue s u now).1.queue, t₁.id = t.id
    unfold leave_queue
    split
    · exact ⟨t, ht, rfl⟩
    · split
      · refine ⟨setPos (waitingSorted (s.queue.map (fun x =>
            if x.userId = u ∧ x.status = Status.waiting then
              { x with status := Status.cancelled, completedTime := some now }
            else x)))
            ((fun x => if x.userId = u ∧ x.status = Status.waiting then
              { x with status := Status.cancelled, completedTime := some now }
            else x) t), ?_, ?_⟩
        · show _ ∈ update_queue_positions _
          simp only [update_queue_positions]
          exact List.mem_map.mpr ⟨_, List.mem_map.mpr ⟨t, ht, rfl⟩, rfl⟩
        · rw [setPos_id]
          dsimp only
          split <;> rfl
      · exact ⟨t, ht, rfl⟩

theorem status_step (s : QueueState) (h : StateInv s) (op : Op)
    (t : Ticket) (ht : t ∈ s.queue) (t' : Ticket) (ht' : t' ∈ (step s op).queue)
    (hid : t'.id = t.id) :
    t'.status = t.status ∨ (t.status = Status.waiting ∧
      (t'.status = Status.completed ∨ t'.status = Status.cancelled)) := by
  have hsame : ∀ (hq : t' ∈ s.queue), t'.status = t.status := by
    intro hq
    rw [List.inj_on_of_nodup_map h.idNodup hq ht hid]
  cases op with
  | join u qt now =>
    revert ht'
    show t' ∈ (join_queue s u qt now).1.queue → _
    unfold join_queue
    split
    · intro ht'; exact Or.inl (hsame ht')
    · split
      · intro ht'; exact Or.inl (hsame ht')
      · dsimp only
        split
        · intro ht'; exact Or.inl (hsame ht')
        · intro ht'
          have hnd := nodup_ids_append s h (newTicket s u qt now) rfl
          exact Or.inl (status_mem_update_append s.queue _ hnd t ht t' ht' hid)
  | callNext a now =>
    revert ht'
    show t' ∈ (call_next s a now).1.queue → _
    unfold call_next
    split
    · intro ht'; exact Or.inl (hsame ht')
    · split
      · split
        · intro ht'; exact Or.inl (hsame ht')
        · rename_i np heq
          intro ht'
          have hst := status_mem_update_map s.queue h.idNodup
            (fun x => if x.id = np.id then
              { x with status := Status.completed, calledTime := some now } else x)
            (fun x => by dsimp only; split <;> rfl) t ht t' ht' hid
          dsimp only at hst
          by_cases hii : t.id = np.id
          · right
            obtain ⟨hnpm, hnpmin⟩ := head_sorted_min heq
            have hnpq : np ∈ s.queue := List.mem_of_mem_filter hnpm
            have hnpw : np.status = Status.waiting := by
              have hf := (List.mem_filter.mp hnpm).2
              simp only [isWaiting, Bool.and_eq_true, decide_eq_true_eq] at hf
              exact hf.1
            have htnp : t = np := List.inj_on_of_nodup_map h.idNodup ht hnpq hii
            rw [if_pos hii] at hst
            exact ⟨htnp ▸ hnpw, Or.inl hst⟩
          · left
            rw [if_neg hii] at hst
            exact hst
      · intro ht'; exact Or.inl (hsame ht')
  | leave u now =>
    revert ht'
    show t' ∈ (leave_queue s u now).1.queue → _
    unfold leave_queue
    split
    · intro ht'; exact Or.inl (hsame ht')
    · split
      · intro ht'
        have hst := status_mem_update_map s.queue h.idNodup
          (fun x => if x.userId = u ∧ x.status = Status.waiting then
            { x with status := Status.cancelled, completedTime := some now } else x)
          (fun x => by dsimp only; split <;> rfl) t ht t' ht' hid
        dsimp only at hst
        by_cases hc : t.userId = u ∧ t.status = Status.waiting
        · right
          rw [if_pos hc] at hst
          exact ⟨hc.2, Or.inr hst⟩
        · left
          rw [if_neg hc] at hst
          exact hst
      · intro ht'; exact Or.inl (hsame ht')

theorem status_run (ops : List Op) : ∀ s, StateInv s →
    ∀ t ∈ s.queue, t.status ≠ Status.waiting →
    ∀ t' ∈ (run s ops).queue, t'.id = t.id → t'.status = t.status := by
  induction ops with
  | nil =>
    intro s h t ht hterm t' ht' hid
    rw [List.inj_on_of_nodup_map h.idNodup ht' ht hid]
  | cons op ops ih =>
    intro s h t ht hterm t' ht' hid
    obtain ⟨t₁, ht₁, hid₁⟩ := mem_step_of_mem s op t ht
    have hcase := status_step s h op t ht t₁ ht₁ hid₁
    have hst : t₁.status = t.status := by
      rcases hcase with hc | hc
      · exact hc
      · exact absurd hc.1 hterm
    have hterm₁ : t₁.status ≠ Status.waiting := by
      rw [hst]
      exact hterm
    have hrun := ih (step s op) (stateInv_step s op h) t₁ ht₁ hterm₁ t' ht'
      (hid.trans hid₁.symm)
    rw [hrun, hst]

theorem users_step (s : QueueState) (op : Op) : (step s op).users = s.users := by
  cases op with
  | join u qt now =>
    show (join_queue s u qt now).1.users = s.users
    unfold join_queue
    split
    · rfl
    · split
      · rfl
      · dsimp only
        split
        · rfl
        · rfl
  | callNext a now =>
    show (call_next s a now).1.users = s.users
    unfold call_next
    split
    · rfl
    · split
      · split
        · rfl
        · rfl
      · rfl
  | leave u now =>
    show (leave_queue s u now).1.users = s.users
    unfold leave_queue
    split
    · rfl
    · split
      · rfl
      · rfl

theorem users_run (ops : List Op) : ∀ s, (run s ops).users = s.users := by
  induction ops with
  | nil => intro s; rfl
  | cons op ops ih =>
    intro s
    exact (ih (step s op)).trans (users_step s op)

theorem Reachable.users_eq {us : List User} {s : QueueState} (h : Reachable us s) :
    s.users = us := by
  obtain ⟨_, ops, hs⟩ := h
  rw [hs]
  exact users_run ops (initState us)

theorem mem_update_map_eq (q : List Ticket) (hnd : (q.map Ticket.id).Nodup)
    (f : Ticket → Ticket) (hid : ∀ x, (f x).id = x.id)
    (t : Ticket) (ht : t ∈ q) (t' : Ticket)
    (ht' : t' ∈ update_queue_positions (q.map f)) (hide : t'.id = t.id) :
    t' = setPos (waitingSorted (q.map f)) (f t) := by
  simp only [update_queue_positions] at ht'
  obtain ⟨x1, hx1, he1⟩ := List.mem_map.mp ht'
  obtain ⟨y, hy, he2⟩ := List.mem_map.mp hx1
  have hyid : y.id = t.id := by
    rw [← he1, setPos_id, ← he2, hid] at hide
    exact hide
  have hyt : y = t := List.inj_on_of_nodup_map hnd hy ht hyid
  rw [← he1, ← he2, hyt]

theorem find?_user_eq (us : List User) (hnd : (us.map User.id).Nodup)
    (usr : User) (husr : usr ∈ us) :
    us.find? (fun x => decide (x.id = usr.id)) = some usr := by
  apply find?_unique _ _ usr husr
  · simp
  · intro y hy hpy
    simp only [decide_eq_true_eq] at hpy
    exact List.inj_on_of_nodup_map hnd hy husr hpy

theorem call_next_eq (s : QueueState) (adminId now : Nat) (adm : User) (np : Ticket)
    (usr : User)
    (h1 : s.users.find? (fun x => decide (x.id = adminId)) = some adm)
    (h2 : adm.role = "admin")
    (h3 : (List.insertionSort posLE (joinedWaiting s)).head? = some np)
    (h4 : s.users.find? (fun x => decide (x.id = np.userId)) = some usr) :
    call_next s adminId now
      = ({ users := s.users,
           queue := update_queue_positions (s.queue.map (fun t =>
             if t.id = np.id then
               { t with status := Status.completed, calledTime := some now }
             else t)),
           nextId := s.nextId }, CallResult.called np.ticketNumber usr.full_name) := by
  unfold call_next
  rw [h1]
  dsimp only
  rw [if_pos h2, h3]
  dsimp only
  rw [h4]

theorem join_queue_state_cases (s : QueueState) (u : Nat) (qt : String) (now : Nat) :
    (join_queue s u qt now).1 = s ∨
    (∃ tn p, (join_queue s u qt now).2 = JoinResult.joined tn p) := by
  unfold join_queue
  split
  · exact Or.inl rfl
  · split
    · exact Or.inl rfl
    · dsimp only
      split
      · exact Or.inl rfl
      · exact Or.inr ⟨_, _, rfl⟩

theorem leave_queue_state_cases (s : QueueState) (u : Nat) (now : Nat) :
    (leave_queue s u now).1 = s ∨ (leave_queue s u now).2 = LeaveResult.left := by
  unfold leave_queue
  split
  · exact Or.inl rfl
  · split
    · exact Or.inr rfl
    · exact Or.inl rfl

theorem call_next_state_cases (s : QueueState) (a : Nat) (now : Nat) :
    (call_next s a now).1 = s ∨
    (∃ tn nm, (call_next s a now).2 = CallResult.called tn nm) := by
  unfold call_next
  split
  · exact Or.inl rfl
  · split
    · split
      · exact Or.inl rfl
      · exact Or.inr ⟨_, _, rfl⟩
    · exact Or.inl rfl

/-- The default admin row created by `init_database` (lines 60-66). -/
def adminUser : User :=
  { id := 1, username := "admin", full_name := "System Admin", role := "admin" }

/-- A registered (non-admin) user row for concrete scenarios. -/
def plainUser (n : Nat) (name : String) : User :=
  { id := n, username := name, full_name := name, role := "user" }

/-- A small user table: the admin plus five registered users. -/
def demoUsers : List User :=
  [adminUser, plainUser 2 "bob", plainUser 3 "cara", plainUser 4 "dan",
   plainUser 5 "eve", plainUser 6 "fay"]

/-- Two users joined on day 0 (timestamps 100 and 101). -/
def joinDemoState : QueueState :=
  run (initState demoUsers) [Op.join 2 "general" 100, Op.join 3 "general" 101]

/-! ### Claim theorems -/

/-- C1: after every sequence of Join/CallNext/Leave operations from a fresh
database, the positions of the waiting tickets are exactly the contiguous
values `1..N` (`N` = number of waiting tickets): every waiting ticket
carries some position in `1..N`, every value in `1..N` is carried, no two
distinct waiting tickets share a position, and smaller positions have
join times no later than larger positions (consistency with ascending
`joinTime`). -/
theorem C1_positions_contiguous (us : List User) (s : QueueState) (hr : Reachable us s) :
    (∀ t ∈ waitingTickets s.queue, ∃ p : Nat, t.position = some p ∧
        1 ≤ p ∧ p ≤ (waitingTickets s.queue).length) ∧
    (∀ p : Nat, 1 ≤ p → p ≤ (waitingTickets s.queue).length →
        ∃ t ∈ waitingTickets s.queue, t.position = some p) ∧
    (∀ t ∈ waitingTickets s.queue, ∀ t' ∈ waitingTickets s.queue,
        t.position = t'.position → t = t') ∧
    (∀ t ∈ waitingTickets s.queue, ∀ t' ∈ waitingTickets s.queue, ∀ p p' : Nat,
        t.position = some p → t'.position = some p' → p < p' →
        t.joinTime ≤ t'.joinTime) := by
  have h := hr.stateInv
  have hpos := h.posOk
  have hlen : (waitingSorted s.queue).length = (waitingTickets s.queue).length :=
    (List.perm_insertionSort timeLE (waitingTickets s.queue)).length_eq
  have hmem : ∀ {x : Ticket}, x ∈ waitingTickets s.queue ↔ x ∈ waitingSorted s.queue :=
    fun {x} => (List.mem_insertionSort timeLE).symm
  refine ⟨?_, ?_, ?_, ?_⟩
  · intro t htw
    obtain ⟨i, hi, hie⟩ := List.mem_iff_getElem.mp (hmem.mp htw)
    refine ⟨i + 1, ?_, Nat.succ_le_succ (Nat.zero_le i), ?_⟩
    · rw [← hie]
      exact pos_of_index hpos i hi
    · rw [← hlen]
      omega
  · intro p hp1 hp2
    have hi : p - 1 < (waitingSorted s.queue).length := by omega
    refine ⟨(waitingSorted s.queue)[p - 1], hmem.mpr (List.getElem_mem hi), ?_⟩
    rw [pos_of_index hpos (p - 1) hi]
    congr 1
    omega
  · intro t ht t' ht' hpp
    obtain ⟨i, hi, hie⟩ := List.mem_iff_getElem.mp (hmem.mp ht)
    obtain ⟨j, hj, hje⟩ := List.mem_iff_getElem.mp (hmem.mp ht')
    have hpi := pos_of_index hpos i hi
    have hpj := pos_of_index hpos j hj
    rw [hie] at hpi
    rw [hje] at hpj
    rw [hpi, hpj] at hpp
    have hij : i = j := by
      injection hpp with hpp'
      omega
    subst hij
    rw [← hie, ← hje]
  · intro t ht t' ht' p p' hp hp' hlt
    obtain ⟨i, hi, hie⟩ := List.mem_iff_getElem.mp (hmem.mp ht)
    obtain ⟨j, hj, hje⟩ := List.mem_iff_getElem.mp (hmem.mp ht')
    have hpi := pos_of_index hpos i hi
    have hpj := pos_of_index hpos j hj
    rw [hie, hp] at hpi
    rw [hje, hp'] at hpj
    have hip : p = i + 1 := by injection hpi
    have hjp : p' = j + 1 := by injection hpj
    have hij : i < j := by omega
    have hsorted : List.Sorted timeLE (waitingSorted s.queue) :=
      List.sorted_insertionSort timeLE (waitingTickets s.queue)
    have hrel := List.pairwise_iff_get.mp hsorted ⟨i, hi⟩ ⟨j, hj⟩ hij
    rw [List.get_eq_getElem, List.get_eq_getElem] at hrel
    unfold timeLE at hrel
    rw [← hie, ← hje]
    exact hrel

/-- Witness for C1 at a concrete reachable state: after two joins there is a
waiting ticket at position 1. -/
theorem C1_positions_contiguous_witness :
    1 ≤ (waitingTickets joinDemoState.queue).length ∧
    ∃ t ∈ waitingTickets joinDemoState.queue, t.position = some 1 :=
  ⟨by decide,
   (C1_positions_contiguous demoUsers joinDemoState
     ⟨by decide, [Op.join 2 "general" 100, Op.join 3 "general" 101], rfl⟩).2.1
     1 (Nat.le_refl 1) (by decide)⟩

/-- C2: in every reachable state the stored ticket numbers are globally
distinct (hence in particular distinct among tickets created the same
day), and for each calendar day `d` the tickets created on day `d` carry,
in creation order, exactly the numbers `ticketFormat 1, ticketFormat 2,
...` — i.e. `TICKET-001, TICKET-002, ...` zero-padded to three digits,
strictly increasing with creation order.  Every stored number has the
format `ticketFormat n` with `n ≥ 1`. -/
theorem C2_daily_numbers (us : List User) (s : QueueState) (hr : Reachable us s) :
    (s.queue.map Ticket.ticketNumber).Nodup ∧
    (∀ d : Nat, (dayTickets s.queue d).map Ticket.ticketNumber
      = (List.range' 1 (dayTickets s.queue d).length).map ticketFormat) ∧
    (∀ t ∈ s.queue, ∃ n : Nat, 1 ≤ n ∧ t.ticketNumber = ticketFormat n) := by
  have h := hr.stateInv
  refine ⟨h.tnNodup, h.dayNums, ?_⟩
  intro t ht
  have htd : t ∈ dayTickets s.queue (dayOf t.joinTime) := by
    simp [dayTickets, ht]
  have hmem : t.ticketNumber
      ∈ (dayTickets s.queue (dayOf t.joinTime)).map Ticket.ticketNumber :=
    List.mem_map_of_mem Ticket.ticketNumber htd
  rw [h.dayNums (dayOf t.joinTime)] at hmem
  obtain ⟨n, hn, hne⟩ := List.mem_map.mp hmem
  exact ⟨n, (List.mem_range'_1.mp hn).1, hne.symm⟩

/-- Witness for C2 at a concrete reachable state: on day 0 the two created
tickets carry exactly the numbers `TICKET-001, TICKET-002`. -/
theorem C2_daily_numbers_witness :
    Reachable demoUsers joinDemoState ∧
    (dayTickets joinDemoState.queue 0).map Ticket.ticketNumber
      = (List.range' 1 (dayTickets joinDemoState.queue 0).length).map ticketFormat :=
  ⟨⟨by decide, [Op.join 2 "general" 100, Op.join 3 "general" 101], rfl⟩,
   (C2_daily_numbers demoUsers joinDemoState
     ⟨by decide, [Op.join 2 "general" 100, Op.join 3 "general" 101], rfl⟩).2.1 0⟩

/-- C6: if a user already holds a waiting ticket, a second Join returns the
already-queued error carrying exactly the existing ticket's number and
position, and the whole database state is unchanged (no new ticket, no
modification). -/
theorem C6_duplicate_join_idempotent (us : List User) (s : QueueState)
    (hr : Reachable us s) (t0 : Ticket) (ht0 : t0 ∈ s.queue)
    (hw : t0.status = Status.waiting) (hnz : ¬t0.userId = 0)
    (qt : String) (now : Nat) :
    join_queue s t0.userId qt now
      = (s, JoinResult.alreadyQueued t0.ticketNumber t0.position) := by
  have h := hr.stateInv
  have hfind : s.queue.find? (fun t => decide (t.userId = t0.userId) && isWaiting t)
      = some t0 := by
    apply find?_unique _ _ t0 ht0
    · simp [isWaiting, hw]
    · intro y hy hpy
      simp only [isWaiting, Bool.and_eq_true, decide_eq_true_eq] at hpy
      exact h.oneWaiting y hy t0 ht0 hpy.2 hw hpy.1
  unfold join_queue
  rw [if_neg hnz, hfind]

/-- The ticket created by the first demo join. -/
def dupDemoTicket : Ticket :=
  { id := 1, userId := 2, ticketNumber := "TICKET-001", queueType := "general",
    status := Status.waiting, joinTime := 100, calledTime := none,
    completedTime := none, position := some 1 }

/-- Witness for C6: joining again as user 2 returns the original assignment
`TICKET-001`, position 1, with the state unchanged. -/
theorem C6_duplicate_join_idempotent_witness :
    (Reachable demoUsers joinDemoState ∧ dupDemoTicket ∈ joinDemoState.queue ∧
      dupDemoTicket.status = Status.waiting ∧ ¬dupDemoTicket.userId = 0) ∧
    join_queue joinDemoState dupDemoTicket.userId "general" 130
      = (joinDemoState,
         JoinResult.alreadyQueued dupDemoTicket.ticketNumber dupDemoTicket.position) :=
  ⟨⟨⟨by decide, [Op.join 2 "general" 100, Op.join 3 "general" 101], rfl⟩,
     by decide, by decide, by decide⟩,
   C6_duplicate_join_idempotent demoUsers joinDemoState
     ⟨by decide, [Op.join 2 "general" 100, Op.join 3 "general" 101], rfl⟩
     dupDemoTicket (by decide) (by decide) (by decide) "general" 130⟩

/-- C7: the number assigned by a successful Join is
`count(status='waiting' and joinTime today) + 1` in the `TICKET-%03d`
format; with exactly 2 waiting tickets created today the next Join yields
`TICKET-003`. -/
theorem C7_number_from_count (s s' : QueueState) (u : Nat) (qt : String)
    (now : Nat) (tn : String) (p : Option Nat)
    (hj : join_queue s u qt now = (s', JoinResult.joined tn p)) :
    tn = ticketFormat ((todayWaiting s.queue now).length + 1) ∧
    ((todayWaiting s.queue now).length = 2 → tn = "TICKET-003") := by
  have htn : tn = ticketFormat ((todayWaiting s.queue now).length + 1) := by
    unfold join_queue at hj
    split at hj
    · exact absurd (congrArg Prod.snd hj) (by simp)
    · split at hj
      · exact absurd (congrArg Prod.snd hj) (by simp)
      · dsimp only at hj
        split at hj
        · exact absurd (congrArg Prod.snd hj) (by simp)
        · have h2 := congrArg Prod.snd hj
          dsimp only at h2
          injection h2 with h3 h4
          exact h3.symm
  refine ⟨htn, ?_⟩
  intro hc
  rw [htn, hc]
  decide

/-- Witness for C7: with 2 tickets created today and waiting, the next join
is assigned `TICKET-003`. -/
theorem C7_number_from_count_witness :
    (todayWaiting joinDemoState.queue 105).length = 2 ∧
    join_queue joinDemoState 4 "general" 105
      = ((join_queue joinDemoState 4 "general" 105).1,
         JoinResult.joined "TICKET-003" (some 3)) ∧
    "TICKET-003" = ticketFormat ((todayWaiting joinDemoState.queue 105).length + 1) :=
  ⟨by decide, by decide,
   (C7_number_from_count joinDemoState (join_queue joinDemoState 4 "general" 105).1
     4 "general" 105 "TICKET-003" (some 3) (by decide)).1⟩

/-- C8: Leave cancels the user's waiting ticket: if the user has no waiting
ticket the update affects zero rows and Leave reports not-in-queue with
the state unchanged; otherwise Leave succeeds, the user's waiting ticket
becomes `cancelled` with `completedTime` stamped, positions are recomputed
(the result queue is exactly `update_queue_positions` of the row update),
and every other ticket keeps its status and completedTime. -/
theorem C8_leave_cancels (us : List User) (s : QueueState) (hr : Reachable us s)
    (u : Nat) (hnz : ¬u = 0) (now : Nat) :
    ((∀ t ∈ s.queue, ¬(t.userId = u ∧ t.status = Status.waiting)) →
      leave_queue s u now = (s, LeaveResult.notInQueue)) ∧
    (∀ t0 ∈ s.queue, t0.userId = u → t0.status = Status.waiting →
      (leave_queue s u now).2 = LeaveResult.left ∧
      (leave_queue s u now).1.queue = update_queue_positions (s.queue.map (fun t =>
        if t.userId = u ∧ t.status = Status.waiting then
          { t with status := Status.cancelled, completedTime := some now } else t)) ∧
      (∀ t' ∈ (leave_queue s u now).1.queue, t'.id = t0.id →
        t'.status = Status.cancelled ∧ t'.completedTime = some now) ∧
      (∀ x ∈ s.queue, ¬(x.userId = u ∧ x.status = Status.waiting) →
        ∀ t' ∈ (leave_queue s u now).1.queue, t'.id = x.id →
          t'.status = x.status ∧ t'.completedTime = x.completedTime)) := by
  have h := hr.stateInv
  constructor
  · intro hno
    have hany : s.queue.any (fun t => decide (t.userId = u) && isWaiting t) = false := by
      rw [List.any_eq_false]
      intro x hx hc
      simp only [isWaiting, Bool.and_eq_true, decide_eq_true_eq] at hc
      exact hno x hx hc
    have hcond : ¬(s.queue.any (fun t => decide (t.userId = u) && isWaiting t) = true) := by
      rw [hany]
      simp
    unfold leave_queue
    rw [if_neg hnz, if_neg hcond]
  · intro t0 ht0 hu0 hw0
    have hany : s.queue.any (fun t => decide (t.userId = u) && isWaiting t) = true :=
      List.any_eq_true.mpr ⟨t0, ht0, by simp [isWaiting, hu0, hw0]⟩
    have hleq : leave_queue s u now
        = ({ users := s.users,
             queue := update_queue_positions (s.queue.map (fun t =>
               if t.userId = u ∧ t.status = Status.waiting then
                 { t with status := Status.cancelled, completedTime := some now }
               else t)),
             nextId := s.nextId }, LeaveResult.left) := by
      unfold leave_queue
      rw [if_neg hnz, if_pos hany]
    refine ⟨by rw [hleq], by rw [hleq], ?_, ?_⟩
    · intro t' ht' hid
      rw [hleq] at ht'
      have he := mem_update_map_eq s.queue h.idNodup _
        (fun z => by split <;> rfl) t0 ht0 t' ht' hid
      rw [he]
      have hcnd : t0.userId = u ∧ t0.status = Status.waiting := ⟨hu0, hw0⟩
      constructor
      · rw [setPos_status]
        rw [if_pos hcnd]
      · rw [setPos_completedTime]
        rw [if_pos hcnd]
    · intro x hx hxc t' ht' hid
      rw [hleq] at ht'
      have he := mem_update_map_eq s.queue h.idNodup _
        (fun z => by split <;> rfl) x hx t' ht' hid
      rw [he]
      constructor
      · rw [setPos_status]
        rw [if_neg hxc]
      · rw [setPos_completedTime]
        rw [if_neg hxc]

/-- The ticket created by the second demo join. -/
def leaveDemoTicket : Ticket :=
  { id := 2, userId := 3, ticketNumber := "TICKET-002", queueType := "general",
    status := Status.waiting, joinTime := 101, calledTime := none,
    completedTime := none, position := some 2 }

/-- Witness for C8: user 3 leaves; their waiting ticket becomes cancelled
with completedTime stamped. -/
theorem C8_leave_cancels_witness :
    (Reachable demoUsers joinDemoState ∧
      leaveDemoTicket ∈ joinDemoState.queue) ∧
    (leave_queue joinDemoState 3 140).2 = LeaveResult.left := by
  have hr : Reachable demoUsers joinDemoState :=
    ⟨by decide, [Op.join 2 "general" 100, Op.join 3 "general" 101], rfl⟩
  have ht0 : leaveDemoTicket ∈ joinDemoState.queue := by decide
  refine ⟨⟨hr, ht0⟩, ?_⟩
  exact ((C8_leave_cancels demoUsers joinDemoState hr 3 (by decide) 140).2
    leaveDemoTicket ht0 (by decide) (by decide)).1

/-- C9: ticket status is monotone.  In one step from a reachable state, a
ticket's status either stays what it was, or moves from `waiting` to
`completed` or `cancelled`; and once a ticket is not `waiting`
(i.e. `completed` or `cancelled`), its status is unchanged by every
further sequence of operations. -/
theorem C9_status_monotone (us : List User) (s : QueueState) (hr : Reachable us s) :
    (∀ op : Op, ∀ t ∈ s.queue, ∀ t' ∈ (step s op).queue, t'.id = t.id →
      t'.status = t.status ∨ (t.status = Status.waiting ∧
        (t'.status = Status.completed ∨ t'.status = Status.cancelled))) ∧
    (∀ ops : List Op, ∀ t ∈ s.queue, t.status ≠ Status.waiting →
      ∀ t' ∈ (run s ops).queue, t'.id = t.id → t'.status = t.status) := by
  have h := hr.stateInv
  exact ⟨fun op t ht t' ht' hid => status_step s h op t ht t' ht' hid,
         fun ops t ht hterm t' ht' hid => status_run ops s h t ht hterm t' ht' hid⟩

/-- State with one ticket completed by CallNext. -/
def monoDemoState : QueueState :=
  run (initState demoUsers) [Op.join 2 "general" 100, Op.callNext 1 110]

/-- The completed ticket of `monoDemoState`. -/
def monoDemoTicket : Ticket :=
  { id := 1, userId := 2, ticketNumber := "TICKET-001", queueType := "general",
    status := Status.completed, joinTime := 100, calledTime := some 110,
    completedTime := none, position := some 1 }

/-- Witness for C9: the completed ticket is still completed after a further
join. -/
theorem C9_status_monotone_witness :
    (Reachable demoUsers monoDemoState ∧ monoDemoTicket ∈ monoDemoState.queue ∧
      monoDemoTicket.status ≠ Status.waiting ∧
      monoDemoTicket ∈ (run monoDemoState [Op.join 3 "general" 120]).queue) ∧
    monoDemoTicket.status = monoDemoTicket.status := by
  have hr : Reachable demoUsers monoDemoState :=
    ⟨by decide, [Op.join 2 "general" 100, Op.callNext 1 110], rfl⟩
  refine ⟨⟨hr, by decide, by decide, by decide⟩, ?_⟩
  exact (C9_status_monotone demoUsers monoDemoState hr).2 [Op.join 3 "general" 120]
    monoDemoTicket (by decide) (by decide) monoDemoTicket (by decide) rfl

/-- C10: every failing outcome leaves the state unchanged: Join answering
AlreadyQueued, Leave answering NotInQueue, CallNext answering
PermissionDenied or EmptyQueue each return the state untouched; and a
caller id matching no user yields PermissionDenied (not NotFound), also
unchanged. -/
theorem C10_failures_unchanged (s : QueueState) (now : Nat) :
    (∀ u : Nat, ∀ qt tn : String, ∀ p : Option Nat,
      (join_queue s u qt now).2 = JoinResult.alreadyQueued tn p →
      (join_queue s u qt now).1 = s) ∧
    (∀ u : Nat, (leave_queue s u now).2 = LeaveResult.notInQueue →
      (leave_queue s u now).1 = s) ∧
    (∀ a : Nat, (call_next s a now).2 = CallResult.permissionDenied →
      (call_next s a now).1 = s) ∧
    (∀ a : Nat, (call_next s a now).2 = CallResult.emptyQueue →
      (call_next s a now).1 = s) ∧
    (∀ a : Nat, s.users.find? (fun x => decide (x.id = a)) = none →
      (call_next s a now).2 = CallResult.permissionDenied ∧ (call_next s a now).1 = s) := by
  refine ⟨?_, ?_, ?_, ?_, ?_⟩
  · intro u qt tn p hres
    rcases join_queue_state_cases s u qt now with hc | ⟨tn', p', hc⟩
    · exact hc
    · rw [hc] at hres
      exact absurd hres (by simp)
  · intro u hres
    rcases leave_queue_state_cases s u now with hc | hc
    · exact hc
    · rw [hc] at hres
      exact absurd hres (by simp)
  · intro a hres
    rcases call_next_state_cases s a now with hc | ⟨tn', nm', hc⟩
    · exact hc
    · rw [hc] at hres
      exact absurd hres (by simp)
  · intro a hres
    rcases call_next_state_cases s a now with hc | ⟨tn', nm', hc⟩
    · exact hc
    · rw [hc] at hres
      exact absurd hres (by simp)
  · intro a hfind
    unfold call_next
    rw [hfind]
    exact ⟨rfl, rfl⟩

/-- Witness for C10: an unknown caller id yields PermissionDenied and an
unchanged state. -/
theorem C10_failures_unchanged_witness :
    (initState demoUsers).users.find? (fun x => decide (x.id = 42)) = none ∧
    (call_next (initState demoUsers) 42 0).2 = CallResult.permissionDenied ∧
    (call_next (initState demoUsers) 42 0).1 = initState demoUsers :=
  ⟨by decide,
   (C10_failures_unchanged (initState demoUsers) 0).2.2.2.2 42 (by decide)⟩

/-- C4: CONTRARY to the claim, Join performs no user-existence check: with a
user table containing only the admin (id 1), `Join(2)` succeeds with
`TICKET-001`, position 1, and inserts a ticket referencing the
non-existent user 2 — the declared `FOREIGN KEY` is never enforced
because the code never issues `PRAGMA foreign_keys = ON`.  This theorem
evaluates the code at that failing input. -/
theorem C4_join_skips_user_check :
    (initState [adminUser]).users.all (fun usr => !decide (usr.id = 2)) = true ∧
    (join_queue (initState [adminUser]) 2 "general" 50).2
      = JoinResult.joined "TICKET-001" (some 1) ∧
    (join_queue (initState [adminUser]) 2 "general" 50).1.queue.map Ticket.userId
      = [2] := by
  refine ⟨by decide, by decide, by decide⟩

/-- `statsDemoState`: five users joined on day 0, two of them then completed
via CallNext on the same day (called at times 110 and 111). -/
def statsDemoState : QueueState :=
  run (initState demoUsers)
    [Op.join 2 "general" 100, Op.join 3 "general" 101, Op.join 4 "general" 102,
     Op.join 5 "general" 103, Op.join 6 "general" 104,
     Op.callNext 1 110, Op.callNext 1 111]

/-- C3: CONTRARY to the claim, in a state with 3 waiting tickets and 2
tickets completed today via CallNext (their `calledTime` is today,
`completedTime` is NULL because `call_next` never sets it), Stats reports
`waitingCount = 3` but `completedToday = 0`, not 2: `queue_stats` filters
on `completed_time`, which no `'completed'` row ever carries.  Stats is a
pure read (modelled as a function of the state; the handler runs only
SELECTs).  This theorem evaluates the code at that failing input. -/
theorem C3_completedToday_is_zero :
    (statsDemoState.queue.filter (fun t => decide (t.status = Status.completed)
      && t.calledTime.any (fun ct => decide (dayOf ct = dayOf 120)))).length = 2 ∧
    (statsDemoState.queue.filter isWaiting).length = 3 ∧
    queue_stats statsDemoState 120
      = { waitingCount := 3, completedToday := 0, totalUsers := 5 } := by
  refine ⟨by decide, by decide, by decide⟩

/-- A state reached by a single join for user id 99, which matches no row in
the user table (the code allows this, see C4). -/
def orphanState : QueueState := run (initState [adminUser]) [Op.join 99 "general" 100]

/-- Counterexample to C5 as stated: in `orphanState` the waiting set is
non-empty (one ticket), yet CallNext by the admin answers EmptyQueue and
completes nothing — the inner `JOIN users` in `call_next` drops waiting
rows whose `user_id` matches no user, so the earliest waiting ticket is
not selected. -/
theorem C5_counterexample :
    (waitingTickets orphanState.queue).length = 1 ∧
    call_next orphanState 1 110 = (orphanState, CallResult.emptyQueue) := by
  refine ⟨by decide, by decide⟩

/-- C5 (amended): whenever the waiting set is non-empty AND every waiting
ticket's userId resolves to an existing user, CallNext by an admin selects
a waiting ticket with minimal joinTime among the currently waiting
tickets, transitions exactly that ticket to `completed`, stamps its
`calledTime`, triggers Recompute (the result queue is exactly
`update_queue_positions` of the row update), and returns that ticket's
number with the user's display name; every other ticket keeps its status
and calledTime. -/
theorem C5_call_next_fifo (us : List User) (s : QueueState) (hr : Reachable us s)
    (adminId now : Nat) (adm : User) (hadm : adm ∈ us) (haid : adm.id = adminId)
    (hrole : adm.role = "admin")
    (hres : ∀ t ∈ waitingTickets s.queue, ∃ usr ∈ us, usr.id = t.userId)
    (hne : waitingTickets s.queue ≠ []) :
    ∃ np ∈ waitingTickets s.queue,
      (∀ w ∈ waitingTickets s.queue, np.joinTime ≤ w.joinTime) ∧
      (∃ usr ∈ us, usr.id = np.userId ∧
        call_next s adminId now
          = ({ users := s.users,
               queue := update_queue_positions (s.queue.map (fun t =>
                 if t.id = np.id then
                   { t with status := Status.completed, calledTime := some now }
                 else t)),
               nextId := s.nextId }, CallResult.called np.ticketNumber usr.full_name)) ∧
      (∀ t' ∈ (call_next s adminId now).1.queue, t'.id = np.id →
        t'.status = Status.completed ∧ t'.calledTime = some now) ∧
      (∀ x ∈ s.queue, ¬x.id = np.id → ∀ t' ∈ (call_next s adminId now).1.queue,
        t'.id = x.id → t'.status = x.status ∧ t'.calledTime = x.calledTime) := by
  have h := hr.stateInv
  have hndu : (us.map User.id).Nodup := hr.1
  have husers : s.users = us := hr.users_eq
  have hjw : joinedWaiting s = waitingTickets s.queue := by
    unfold joinedWaiting waitingTickets
    apply List.filter_congr
    intro x hx
    cases hw : isWaiting x with
    | false => simp
    | true =>
      simp only [Bool.true_and]
      obtain ⟨usr, husr, huid⟩ := hres x (List.mem_filter.mpr ⟨hx, hw⟩)
      rw [husers]
      exact List.any_eq_true.mpr ⟨usr, husr, by simp [huid]⟩
  have hnonnil : List.insertionSort posLE (joinedWaiting s) ≠ [] := by
    intro hnil
    apply hne
    have hl := congrArg List.length hnil
    rw [List.length_insertionSort, hjw] at hl
    exact List.length_eq_zero.mp hl
  obtain ⟨np, hnp⟩ : ∃ np, (List.insertionSort posLE (joinedWaiting s)).head? = some np := by
    cases hc : (List.insertionSort posLE (joinedWaiting s)).head? with
    | none => exact absurd (List.head?_eq_none_iff.mp hc) hnonnil
    | some np => exact ⟨np, rfl⟩
  obtain ⟨hnpmem, hnpmin⟩ := head_sorted_min hnp
  rw [hjw] at hnpmem hnpmin
  have hminjt := minpos_min_joinTime s.queue h.posOk np hnpmem hnpmin
  obtain ⟨usr, husr, huid⟩ := hres np hnpmem
  have h4 : s.users.find? (fun x => decide (x.id = np.userId)) = some usr := by
    rw [husers, ← huid]
    exact find?_user_eq us hndu usr husr
  have h1 : s.users.find? (fun x => decide (x.id = adminId)) = some adm := by
    rw [husers, ← haid]
    exact find?_user_eq us hndu adm hadm
  have hcne := call_next_eq s adminId now adm np usr h1 hrole hnp h4
  have hq : np ∈ s.queue := List.mem_of_mem_filter hnpmem
  refine ⟨np, hnpmem, hminjt, ⟨usr, husr, huid, hcne⟩, ?_, ?_⟩
  · intro t' ht' hid
    rw [hcne] at ht'
    have he := mem_update_map_eq s.queue h.idNodup _
      (fun z => by split <;> rfl) np hq t' ht' hid
    rw [he]
    constructor
    · rw [setPos_status, if_pos rfl]
    · rw [setPos_calledTime, if_pos rfl]
  · intro x hx hxne t' ht' hid
    rw [hcne] at ht'
    have he := mem_update_map_eq s.queue h.idNodup _
      (fun z => by split <;> rfl) x hx t' ht' hid
    rw [he]
    constructor
    · rw [setPos_status, if_neg hxne]
    · rw [setPos_calledTime, if_neg hxne]

/-- Witness for the amended C5: with two resolvable waiting users, CallNext
by the admin selects a minimal-joinTime waiting ticket. -/
theorem C5_call_next_fifo_witness :
    (Reachable demoUsers joinDemoState ∧ adminUser ∈ demoUsers ∧
      adminUser.id = 1 ∧ adminUser.role = "admin" ∧
      (∀ t ∈ waitingTickets joinDemoState.queue, ∃ usr ∈ demoUsers, usr.id = t.userId) ∧
      waitingTickets joinDemoState.queue ≠ []) ∧
    (∃ np ∈ waitingTickets joinDemoState.queue,
      ∀ w ∈ waitingTickets joinDemoState.queue, np.joinTime ≤ w.joinTime) := by
  have hr : Reachable demoUsers joinDemoState :=
    ⟨by decide, [Op.join 2 "general" 100, Op.join 3 "general" 101], rfl⟩
  have hres : ∀ t ∈ waitingTickets joinDemoState.queue,
      ∃ usr ∈ demoUsers, usr.id = t.userId := by decide
  have hne : waitingTickets joinDemoState.queue ≠ [] := by decide
  obtain ⟨np, hmem, hmin, _⟩ := C5_call_next_fifo demoUsers joinDemoState hr 1 200
    adminUser (by decide) (by decide) (by decide) hres hne
  exact ⟨⟨hr, by decide, by decide, by decide, hres, hne⟩, np, hmem, hmin⟩
